import Mathlib

/-!
Verification of the calendar filtering core of this repository
(`src/api/index.py`, together with the legacy variant `src/calfilter.py`).

The Python code is shallowly embedded: events and calendars are explicit
data, Python exceptions are modelled with `Except`, and the external
libraries (`thefuzz.fuzz.partial_ratio`, `dateutil`'s occurrence engine
`rrule.between` / `rrule[-1]`, `icalevents.events`) are parameters of the
pipeline, since only their interfaces matter to the repository's logic.
`dateutil`'s `rrule.__str__` serialization and `rrule.replace` are modelled
concretely (from the dateutil sources) because the duplicate decision for
recurring events compares their exact output strings.

Modelled fragment notes:
* date / datetime values are field tuples ordered lexicographically, which
  is exactly Python's comparison for same-type values; time zone awareness
  is not modelled (all datetimes are comparable with each other).
* recurrence rules carry the fields that `rrule.__str__` prints for rules
  arising from `rrulestr` in this program: freq, interval, wkst, count,
  until, byweekday and the anchor dtstart.  Ordinal-qualified weekdays
  (e.g. `+1MO`) and the remaining `by*` lists are outside the fragment;
  they would appear in the serialization in exactly the same way as
  `BYDAY` does.
* `icalendar.Component.walk("VEVENT")` returns a freshly materialized list
  of the events of a calendar; a calendar is modelled as that list.
  `list.remove` removes the first element equal to its argument and raises
  `ValueError` when none is present.
-/

namespace CalFilter

/-- Python exception kinds that the modelled code can raise. -/
inductive PyErr where
  | attributeError
  | typeError
  | valueError
  | assertionError
  | parseError
deriving DecidableEq, Repr

/-- A `datetime.date` value (field tuple, compared lexicographically). -/
structure Date where
  year : Nat
  month : Nat
  day : Nat
deriving DecidableEq, Repr

/-- A `datetime.datetime` value (field tuple, compared lexicographically). -/
structure DateTime where
  year : Nat
  month : Nat
  day : Nat
  hour : Nat
  minute : Nat
  second : Nat
deriving DecidableEq, Repr

/-- Python tuple comparison `a <= b`, as used by `date` / `datetime` /
`time` ordering: lexicographic on the field lists. -/
def lexLe : List Nat → List Nat → Bool
  | [], _ => true
  | _ :: _, [] => false
  | a :: as, b :: bs => decide (a < b) || (decide (a = b) && lexLe as bs)

def Date.toList (d : Date) : List Nat := [d.year, d.month, d.day]

def DateTime.toList (d : DateTime) : List Nat :=
  [d.year, d.month, d.day, d.hour, d.minute, d.second]

/-- `datetime.time()`: the time-of-day projection of a datetime. -/
def DateTime.timeOfDay (d : DateTime) : List Nat := [d.hour, d.minute, d.second]

/-- A `DTSTART` / `DTEND` value: either a bare date or a datetime.  These
are distinct Python types (`datetime.date` vs `datetime.datetime`). -/
inductive Temporal where
  | date (d : Date)
  | datetime (dt : DateTime)
deriving DecidableEq, Repr

/-- Discriminates the Python type of a temporal value, as
`type(x) != type(y)` does in `events_overlap`. -/
def Temporal.isDatetime : Temporal → Bool
  | .date _ => false
  | .datetime _ => true

/-- Python `a <= b` on temporal values: same-type values compare
lexicographically on their fields; ordering a `date` against a
`datetime` raises `TypeError`. -/
def tempLe : Temporal → Temporal → Except PyErr Bool
  | .date a, .date b => .ok (lexLe a.toList b.toList)
  | .datetime a, .datetime b => .ok (lexLe a.toList b.toList)
  | _, _ => .error .typeError

/-- The claim-side instant order `a ≤ b` for two values of one kind
(false on mismatched kinds, which the code never compares successfully).
Stated from the spec's interval model to compare against `eventsOverlap`. -/
def tempLeB : Temporal → Temporal → Bool
  | .date a, .date b => lexLe a.toList b.toList
  | .datetime a, .datetime b => lexLe a.toList b.toList
  | _, _ => false

/-- An `icalendar.Event` restricted to the properties this program reads:
`SUMMARY`, `DTSTART`, `DTEND` and the raw `RRULE` text (the decoded
`to_ical()` form that is handed to `dateutil.rrule.rrulestr`). -/
structure Event where
  summary : String
  dtstart : Option Temporal
  dtend : Option Temporal
  rrule : Option String
deriving DecidableEq, Repr

/-- `events_overlap(event1, event2, time_only)` from `src/api/index.py`.
Missing `DTSTART`/`DTEND` raises `AttributeError` inside the `try` block
(`None.dt`), which is caught and turned into `False`.  A type mismatch
between the two starts or between the two ends yields `False`.  In
`time_only` mode the four values are projected with `.time()`, which
raises `AttributeError` on `datetime.date` values (not caught).  The
closed-interval test `start1 <= end2 and end1 >= start2` short-circuits,
and raises `TypeError` when it compares a date with a datetime. -/
def eventsOverlap (e1 e2 : Event) (timeOnly : Bool) : Except PyErr Bool :=
  match e1.dtstart, e1.dtend, e2.dtstart, e2.dtend with
  | some s1, some en1, some s2, some en2 =>
    if s1.isDatetime ≠ s2.isDatetime ∨ en1.isDatetime ≠ en2.isDatetime then .ok false
    else if timeOnly then
      match s1, en1, s2, en2 with
      | .datetime a, .datetime b, .datetime c, .datetime d =>
        .ok (lexLe a.timeOfDay d.timeOfDay && lexLe c.timeOfDay b.timeOfDay)
      | _, _, _, _ => .error .attributeError
    else
      match tempLe s1 en2 with
      | .error e => .error e
      | .ok false => .ok false
      | .ok true => tempLe s2 en1
  | _, _, _, _ => .ok false

/-! ### The dateutil `rrule` fragment -/

inductive Weekday where
  | mo | tu | we | th | fr | sa | su
deriving DecidableEq, Repr

/-- `repr(weekday(n))[0:2]` in dateutil: the two-letter RFC 5545 name. -/
def dayName : Weekday → String
  | .mo => "MO"
  | .tu => "TU"
  | .we => "WE"
  | .th => "TH"
  | .fr => "FR"
  | .sa => "SA"
  | .su => "SU"

inductive Freq where
  | yearly | monthly | weekly | daily | hourly | minutely | secondly
deriving DecidableEq, Repr

/-- `FREQNAMES[freq]` in dateutil. -/
def freqName : Freq → String
  | .yearly => "YEARLY"
  | .monthly => "MONTHLY"
  | .weekly => "WEEKLY"
  | .daily => "DAILY"
  | .hourly => "HOURLY"
  | .minutely => "MINUTELY"
  | .secondly => "SECONDLY"

/-- A parsed `dateutil.rrule.rrule` object, restricted to the fields that
`__str__` prints for the rules this program builds (see module comment).
`byweekday` is the `_original_rule['byweekday']` entry: `none` when the
textual rule had no `BYDAY` part. -/
structure RRule where
  freq : Freq
  interval : Nat
  wkst : Weekday
  count : Option Nat
  til : Option DateTime  -- the `_until` bound (`until` is reserved in Lean)
  byweekday : Option (List Weekday)
  dtstart : DateTime
deriving DecidableEq, Repr

/-- One decimal digit character. -/
def digitChar : Nat → Char
  | 0 => '0'
  | 1 => '1'
  | 2 => '2'
  | 3 => '3'
  | 4 => '4'
  | 5 => '5'
  | 6 => '6'
  | 7 => '7'
  | 8 => '8'
  | 9 => '9'
  | _ => '0'

/-- Decimal digits of `n`, most significant first; `fuel ≥ n` makes the
structural recursion complete (a number has at most `n` digits). -/
def natDigits : Nat → Nat → List Char
  | _, 0 => []
  | 0, _ + 1 => []
  | fuel + 1, n + 1 => natDigits fuel ((n + 1) / 10) ++ [digitChar ((n + 1) % 10)]

/-- Python `str(n)` for a natural number. -/
def numStr (n : Nat) : String := if n = 0 then "0" else ⟨natDigits n n⟩

/-- `strftime` zero-padding of a number to width `w`. -/
def pad (w n : Nat) : String :=
  ⟨List.replicate (w - (numStr n).data.length) '0' ++ (numStr n).data⟩

/-- `dt.strftime('%Y%m%dT%H%M%S')`. -/
def dateTimeStr (d : DateTime) : String :=
  pad 4 d.year ++ pad 2 d.month ++ pad 2 d.day ++ "T" ++
    pad 2 d.hour ++ pad 2 d.minute ++ pad 2 d.second

/-- The `','.join` of the two-letter day names, as `__str__` prints the
`BYDAY` value list. -/
def dayListStr : List Weekday → String
  | [] => ""
  | [d] => dayName d
  | d :: d' :: rest => dayName d ++ "," ++ dayListStr (d' :: rest)

/-- `;INTERVAL=…`, printed only when the interval is not 1. -/
def intervalPart (r : RRule) : String :=
  if r.interval = 1 then "" else ";INTERVAL=" ++ numStr r.interval

/-- `;WKST=…`, printed only when `_wkst` is truthy, i.e. not Monday (0). -/
def wkstPart (r : RRule) : String :=
  if r.wkst = .mo then "" else ";WKST=" ++ dayName r.wkst

/-- `;COUNT=…`, printed only when `_count is not None`. -/
def countPart (r : RRule) : String :=
  match r.count with
  | none => ""
  | some c => ";COUNT=" ++ numStr c

/-- `;UNTIL=…`, printed only when `_until` is set. -/
def untilPart (r : RRule) : String :=
  match r.til with
  | none => ""
  | some u => ";UNTIL=" ++ dateTimeStr u

/-- `;BYDAY=…`, printed only when the original rule had a `byweekday`. -/
def bydayPart (r : RRule) : String :=
  match r.byweekday with
  | none => ""
  | some l => ";BYDAY=" ++ dayListStr l

/-- Everything `rrule.__str__` prints before the `BYDAY` part: the
`DTSTART:` line, then the `RRULE:` line with `FREQ`, and the optional
`INTERVAL`, `WKST`, `COUNT`, `UNTIL` parts (joined by `;`). -/
def rruleStem (r : RRule) : String :=
  "DTSTART:" ++ dateTimeStr r.dtstart ++ "\nRRULE:FREQ=" ++ freqName r.freq ++
    intervalPart r ++ wkstPart r ++ countPart r ++ untilPart r

/-- `str(rule)` — dateutil's `rrule.__str__` on the modelled fragment. -/
def rruleStr (r : RRule) : String := rruleStem r ++ bydayPart r

/-- `rule.replace(dtstart=…, wkst=…, count=…, until=…)`: rebuilds the rule
with the four keyword fields overwritten, all other fields (including the
original `by*` lists) kept. -/
def RRule.replace (r : RRule) (dtstart : DateTime) (wkst : Weekday)
    (count : Option Nat) (til : Option DateTime) : RRule :=
  { r with dtstart := dtstart, wkst := wkst, count := count, til := til }

/-- The Recurrence Normalizer decision in `recurring_events_are_equal`
(src/api/index.py lines 111-115): serialize `rule1`, serialize `rule2`
with dtstart / wkst / count / until overwritten by `rule1`'s values, and
compare the strings. -/
def rulesStructurallyEqual (r1 r2 : RRule) : Bool :=
  rruleStr r1 == rruleStr (r2.replace r1.dtstart r1.wkst r1.count r1.til)

/-! ### External collaborators

The fuzzy title scorer and dateutil's occurrence engine are third-party
libraries; the pipeline is parameterized over them, since none of the
verified properties depends on their internals. -/

/-- The external library functions used by `src/api/index.py`:
`fuzz.partial_ratio` (a 0-100 similarity score), `rrulestr` (parsing the
raw `RRULE` text against the event's `DTSTART` anchor, which can fail on
malformed rules), `rule[-1]` (the last occurrence of a finite rule) and
`rule.between(a, b)` (the occurrences strictly between `a` and `b`). -/
structure Libs where
  similarity : String → String → Nat
  rrulestr : String → Temporal → Except PyErr RRule
  lastOcc : RRule → DateTime
  between : RRule → DateTime → DateTime → List DateTime

/-- `event.get('DTSTART').dt`: raises `AttributeError` when the property
is absent (`None.dt`). -/
def getDtstart (e : Event) : Except PyErr Temporal :=
  match e.dtstart with
  | none => .error .attributeError
  | some t => .ok t

/-- `FUZZY_MATCH_THRESHOLD` in `src/api/index.py`. -/
def FUZZY_MATCH_THRESHOLD : Nat := 90

/-- `recurring_events_are_equal(event1, event2)` from `src/api/index.py`:
two asserts on `RRULE` presence, the fuzzy title gate, parsing both rules,
the serialization comparison through `rule2.replace`, the bounded-overlap
check through `between` for finite rules, and finally the time-of-day
overlap test. -/
def recurringEventsAreEqual (L : Libs) (e1 e2 : Event) : Except PyErr Bool :=
  match e1.rrule, e2.rrule with
  | some raw1, some raw2 =>
    if L.similarity e1.summary e2.summary ≥ FUZZY_MATCH_THRESHOLD then
      match getDtstart e1 with
      | .error e => .error e
      | .ok a1 =>
        match L.rrulestr raw1 a1 with
        | .error e => .error e
        | .ok r1 =>
          match getDtstart e2 with
          | .error e => .error e
          | .ok a2 =>
            match L.rrulestr raw2 a2 with
            | .error e => .error e
            | .ok r2 =>
              if rulesStructurallyEqual r1 r2 then
                if r1.count.isSome || r1.til.isSome then
                  if (L.between r2 r1.dtstart (L.lastOcc r1)).length = 0 then .ok false
                  else eventsOverlap e1 e2 true
                else if r2.count.isSome || r2.til.isSome then
                  if (L.between r1 r2.dtstart (L.lastOcc r2)).length = 0 then .ok false
                  else eventsOverlap e1 e2 true
                else eventsOverlap e1 e2 true
              else .ok false
    else .ok false
  | _, _ => .error .assertionError

/-- The non-recurring duplicate decision inside `filter_duplicates`:
`events_overlap(event1, event2) and fuzz.partial_ratio(...) >= 90`. -/
def nonRecurringDuplicate (L : Libs) (e1 e2 : Event) : Except PyErr Bool :=
  match eventsOverlap e1 e2 false with
  | .error e => .error e
  | .ok b => .ok (b && decide (L.similarity e1.summary e2.summary ≥ FUZZY_MATCH_THRESHOLD))

/-! ### The filter pipeline -/

/-- `list.remove(x)`: removes the first element equal to `x`, raising
`ValueError` when no element is equal. -/
def removeFirst (l : List Event) (x : Event) : Except PyErr (List Event)  :=
  match l with
  | [] => .error .valueError
  | a :: rest =>
    if a = x then .ok rest
    else
      match removeFirst rest x with
      | .error e => .error e
      | .ok r => .ok (a :: r)

/-- The two calendars held by `filter_duplicates`; only `target` is ever
mutated (`target_calendar.subcomponents.remove`). -/
structure CalPair where
  primary : List Event
  target : List Event
deriving DecidableEq, Repr

/-- Inner loop of the recurring pass: `for event2 in
target_calendar.walk("VEVENT")` over a snapshot taken when the loop
starts, skipping non-recurring events, removing matches from the live
target and counting them. -/
def recurInner (L : Libs) (e1 : Event) :
    List Event → CalPair → Nat → Except PyErr (CalPair × Nat)
  | [], st, n => .ok (st, n)
  | e2 :: rest, st, n =>
    match e2.rrule with
    | none => recurInner L e1 rest st n
    | some _ =>
      match recurringEventsAreEqual L e1 e2 with
      | .error e => .error e
      | .ok false => recurInner L e1 rest st n
      | .ok true =>
        match removeFirst st.target e2 with
        | .error e => .error e
        | .ok t' => recurInner L e1 rest { st with target := t' } (n + 1)

/-- Outer loop of the recurring pass: `for event1 in
primary_calendar.walk("VEVENT")`, skipping non-recurring events; the
inner walk snapshot is re-taken from the current target each time. -/
def recurOuter (L : Libs) :
    List Event → CalPair → Nat → Except PyErr (CalPair × Nat)
  | [], st, n => .ok (st, n)
  | e1 :: rest, st, n =>
    match e1.rrule with
    | none => recurOuter L rest st n
    | some _ =>
      match recurInner L e1 st.target st n with
      | .error e => .error e
      | .ok (st', n') => recurOuter L rest st' n'

/-- Inner loop of the non-recurring pass, skipping recurring events. -/
def singleInner (L : Libs) (e1 : Event) :
    List Event → CalPair → Nat → Except PyErr (CalPair × Nat)
  | [], st, n => .ok (st, n)
  | e2 :: rest, st, n =>
    match e2.rrule with
    | some _ => singleInner L e1 rest st n
    | none =>
      match nonRecurringDuplicate L e1 e2 with
      | .error e => .error e
      | .ok false => singleInner L e1 rest st n
      | .ok true =>
        match removeFirst st.target e2 with
        | .error e => .error e
        | .ok t' => singleInner L e1 rest { st with target := t' } (n + 1)

/-- Outer loop of the non-recurring pass, skipping recurring events. -/
def singleOuter (L : Libs) :
    List Event → CalPair → Nat → Except PyErr (CalPair × Nat)
  | [], st, n => .ok (st, n)
  | e1 :: rest, st, n =>
    match e1.rrule with
    | some _ => singleOuter L rest st n
    | none =>
      match singleInner L e1 st.target st n with
      | .error e => .error e
      | .ok (st', n') => singleOuter L rest st' n'

/-- `filter_duplicates(primary_calendar, target_calendar)` from
`src/api/index.py`: the recurring pass, then the non-recurring pass,
sharing the `filtered` counter (which is only logged).  The final
`Option Nat` is the Python return value — the function body has no
`return` statement, so it is always `none` (Python `None`). -/
def filterDuplicates (L : Libs) (st : CalPair) :
    Except PyErr (CalPair × Nat × Option Nat) :=
  match recurOuter L st.primary st 0 with
  | .error e => .error e
  | .ok (st1, n1) =>
    match singleOuter L st1.primary st1 n1 with
    | .error e => .error e
    | .ok (st2, n2) => .ok (st2, n2, none)

/-- Python `phrase in summary` (substring containment), on char lists:
whether `p` is a prefix of `s`. -/
def leadsChars : List Char → List Char → Bool
  | [], _ => true
  | _ :: _, [] => false
  | a :: as, b :: bs => a = b && leadsChars as bs

/-- Whether `p` occurs as a contiguous run inside `s`. -/
def containsChars (p : List Char) : List Char → Bool
  | [] => leadsChars p []
  | b :: bs => leadsChars p (b :: bs) || containsChars p bs

/-- Python `phrase in summary`: literal, case-sensitive substring test. -/
def substrIn (p s : String) : Bool := containsChars p.data s.data

/-- Inner loop of the keyword filter: `for phrase in FILTER_PHRASES`.
There is no `break` after a removal, so a title containing several
phrases reaches `list.remove` again for an already-removed event. -/
def phraseLoop : List String → Event → List Event → Nat → Except PyErr (List Event × Nat)
  | [], _, cal, n => .ok (cal, n)
  | p :: ps, ev, cal, n =>
    if substrIn p ev.summary then
      match removeFirst cal ev with
      | .error e => .error e
      | .ok cal' => phraseLoop ps ev cal' (n + 1)
    else phraseLoop ps ev cal n

/-- Outer loop of the keyword filter: `for event in
calendar.walk("VEVENT")` over a snapshot taken once. -/
def keywordWalkLoop : List Event → List String → List Event → Nat → Except PyErr (List Event × Nat)
  | [], _, cal, n => .ok (cal, n)
  | ev :: rest, phrases, cal, n =>
    match phraseLoop phrases ev cal n with
    | .error e => .error e
    | .ok (cal', n') => keywordWalkLoop rest phrases cal' n'

/-- `filter_events_by_keyword(calendar)` from `src/api/index.py`, with the
phrase list made an explicit argument (`FILTER_PHRASES` in the source).
The `Option Nat` is the Python return value, always `None`. -/
def filterEventsByKeyword (phrases : List String) (cal : List Event) :
    Except PyErr (List Event × Nat × Option Nat) :=
  match keywordWalkLoop cal phrases cal 0 with
  | .error e => .error e
  | .ok (cal', n) => .ok (cal', n, none)

/-! ### The legacy variant `src/calfilter.py` -/

/-- External collaborators of `src/calfilter.py`: the fuzzy scorer and
`icalevents.events(string_content, start, end, sort=True)`, modelled by
the summaries of the events it returns (the code reads only
`result[0]['summary']`). -/
structure CalfilterLibs where
  similarity : String → String → Nat
  icalevents : String → Temporal → Temporal → List String

/-- `filter_duplicates(primary_calender_content, target_calendar)` from
`src/calfilter.py`: for each event of the walk snapshot, query the primary
content for events in the target event's span, and remove the event when
a result exists whose first summary scores STRICTLY above 90. -/
def calfilterFilterDuplicates (L : CalfilterLibs) (primaryContent : String) :
    List Event → List Event → Except PyErr (List Event)
  | [], tgt => .ok tgt
  | ev :: rest, tgt =>
    match ev.dtstart with
    | none => .error .attributeError
    | some s =>
      match ev.dtend with
      | none => .error .attributeError
      | some e =>
        match L.icalevents primaryContent s e with
        | [] => calfilterFilterDuplicates L primaryContent rest tgt
        | r0 :: _ =>
          if L.similarity ev.summary r0 > 90 then
            match removeFirst tgt ev with
            | .error err => .error err
            | .ok t' => calfilterFilterDuplicates L primaryContent rest t'
          else calfilterFilterDuplicates L primaryContent rest tgt

/-! ### Concrete sample data used by witnesses and counterexamples -/

def sampleDT1 : DateTime := ⟨2024, 3, 4, 12, 0, 0⟩

def sampleDT2 : DateTime := ⟨2024, 3, 4, 13, 0, 0⟩

def sampleDT3 : DateTime := ⟨2024, 3, 4, 14, 0, 0⟩

/-- An event starting exactly when `evSingle1` ends (touching spans). -/
def evTouch : Event :=
  { summary := "Post", dtstart := some (.datetime sampleDT2),
    dtend := some (.datetime sampleDT3), rrule := none }

/-- A non-recurring event whose title contains the phrase "OOF". -/
def evKeyword : Event := { summary := "OOF meeting", dtstart := none, dtend := none, rrule := none }

/-- An event whose title contains two filter phrases. -/
def evTwoPhrases : Event := { summary := "OOF Blocked", dtstart := none, dtend := none, rrule := none }

/-- A recurring all-day event: date-only start and end. -/
def evAllDay : Event :=
  { summary := "AllDay", dtstart := some (.date ⟨2024, 1, 1⟩),
    dtend := some (.date ⟨2024, 1, 2⟩), rrule := some "FREQ=DAILY" }

/-- An event with a date-only start but a datetime end. -/
def evMixedKinds : Event :=
  { summary := "Mixed", dtstart := some (.date ⟨2024, 1, 1⟩),
    dtend := some (.datetime sampleDT2), rrule := none }

/-- A recurring event with datetime start/end. -/
def evRec1 : Event :=
  { summary := "Standup", dtstart := some (.datetime sampleDT1),
    dtend := some (.datetime sampleDT2), rrule := some "FREQ=WEEKLY" }

/-- A second recurring event with the same times. -/
def evRec2 : Event :=
  { summary := "Team Standup", dtstart := some (.datetime sampleDT1),
    dtend := some (.datetime sampleDT2), rrule := some "FREQ=WEEKLY;COUNT=5" }

/-- A non-recurring event at lunch time. -/
def evSingle1 : Event :=
  { summary := "Lunch", dtstart := some (.datetime sampleDT1),
    dtend := some (.datetime sampleDT2), rrule := none }

/-- A second non-recurring event with the same times. -/
def evSingle2 : Event :=
  { summary := "Lunch Break", dtstart := some (.datetime sampleDT1),
    dtend := some (.datetime sampleDT2), rrule := none }

/-- A finite weekly-Monday rule (count = 5). -/
def ruleFinite : RRule :=
  { freq := .weekly, interval := 1, wkst := .mo, count := some 5, til := none,
    byweekday := some [.mo], dtstart := sampleDT1 }

/-- The same rule with no count/until bound. -/
def ruleInfinite : RRule := { ruleFinite with count := none }

/-- A weekly-Tuesday rule. -/
def ruleTue : RRule := { ruleFinite with byweekday := some [.tu] }

/-- Libraries where both events parse to the finite rule and `between`
always reports one occurrence. -/
def libsFinite : Libs :=
  { similarity := fun _ _ => 100, rrulestr := fun _ _ => .ok ruleFinite,
    lastOcc := fun r => r.dtstart, between := fun _ _ _ => [sampleDT1] }

/-- Libraries where both events parse to the infinite rule. -/
def libsInfA : Libs :=
  { similarity := fun _ _ => 100, rrulestr := fun _ _ => .ok ruleInfinite,
    lastOcc := fun r => r.dtstart, between := fun _ _ _ => [sampleDT1] }

/-- Same scorer and parser as `libsInfA` but a disagreeing occurrence
engine. -/
def libsInfB : Libs :=
  { similarity := fun _ _ => 100, rrulestr := fun _ _ => .ok ruleInfinite,
    lastOcc := fun r => { r.dtstart with year := r.dtstart.year + 1 },
    between := fun _ _ _ => [] }

/-- Libraries whose similarity score is always below the threshold. -/
def libsLow : Libs :=
  { similarity := fun _ _ => 0, rrulestr := fun _ _ => .ok ruleFinite,
    lastOcc := fun r => r.dtstart, between := fun _ _ _ => [] }

/-- Libraries whose rule parser always fails (a malformed `RRULE`). -/
def libsParseFail : Libs :=
  { similarity := fun _ _ => 100, rrulestr := fun _ _ => .error .parseError,
    lastOcc := fun r => r.dtstart, between := fun _ _ _ => [sampleDT1] }

/-- `calfilter.py` collaborators producing a similarity score of exactly
90 and a non-empty primary query result. -/
def cfLibs90 : CalfilterLibs :=
  { similarity := fun _ _ => 90, icalevents := fun _ _ _ => ["Lunch"] }

/-! ### String-level helper lemmas for the serialization argument -/

theorem strData_append (s t : String) : (s ++ t).data = s.data ++ t.data := rfl

theorem strEq_iff_data (s t : String) : s = t ↔ s.data = t.data := by
  constructor
  · intro h; rw [h]
  · intro h; cases s; cases t; exact congrArg String.mk h

/-- Splitting a list at the unique occurrence of a marker element: if `c`
occurs in neither prefix, the decompositions agree. -/
theorem split_unique_char {α : Type} [DecidableEq α] (c : α) :
    ∀ x1 x2 y1 y2 : List α, c ∉ x1 → c ∉ x2 →
      x1 ++ c :: y1 = x2 ++ c :: y2 → x1 = x2 ∧ y1 = y2 := by
  intro x1
  induction x1 with
  | nil =>
    intro x2 y1 y2 _ h2 heq
    cases x2 with
    | nil => simpa using heq
    | cons b bs =>
      rw [List.nil_append, List.cons_append, List.cons.injEq] at heq
      exact absurd (by rw [heq.1]; exact List.mem_cons_self b bs) h2
  | cons a as ih =>
    intro x2 y1 y2 h1 h2 heq
    cases x2 with
    | nil =>
      rw [List.nil_append, List.cons_append, List.cons.injEq] at heq
      exact absurd (by rw [← heq.1]; exact List.mem_cons_self a as) h1
    | cons b bs =>
      rw [List.cons_append, List.cons_append, List.cons.injEq] at heq
      obtain ⟨hab, htail⟩ := heq
      have hres := ih bs y1 y2 (fun h => h1 (List.mem_cons_of_mem a h))
        (fun h => h2 (List.mem_cons_of_mem b h)) htail
      exact ⟨by rw [hab, hres.1], hres.2⟩

theorem digitChar_ne_B (m : Nat) : digitChar m ≠ 'B' := by
  simp only [digitChar.eq_def]
  split <;> decide

theorem natDigits_ne_B (fuel : Nat) : ∀ n, 'B' ∉ natDigits fuel n := by
  induction fuel with
  | zero => intro n; cases n <;> simp [natDigits]
  | succ f ih =>
    intro n
    cases n with
    | zero => simp [natDigits]
    | succ m =>
      intro h
      rcases List.mem_append.mp h with h | h
      · exact ih _ h
      · simp only [List.mem_singleton] at h
        exact digitChar_ne_B _ h.symm

theorem numStr_ne_B (n : Nat) : 'B' ∉ (numStr n).data := by
  unfold numStr
  split
  · decide
  · exact natDigits_ne_B n n

theorem pad_ne_B (w n : Nat) : 'B' ∉ (pad w n).data := by
  unfold pad
  intro h
  rcases List.mem_append.mp h with h | h
  · exact absurd (List.eq_of_mem_replicate h) (by decide)
  · exact numStr_ne_B n h

theorem dateTimeStr_ne_B (d : DateTime) : 'B' ∉ (dateTimeStr d).data := by
  unfold dateTimeStr
  intro h
  simp only [strData_append, List.mem_append] at h
  rcases h with ((((((h | h) | h) | h) | h) | h) | h)
  · exact pad_ne_B _ _ h
  · exact pad_ne_B _ _ h
  · exact pad_ne_B _ _ h
  · exact absurd h (by decide)
  · exact pad_ne_B _ _ h
  · exact pad_ne_B _ _ h
  · exact pad_ne_B _ _ h

theorem freqName_ne_B (f : Freq) : 'B' ∉ (freqName f).data := by
  cases f <;> decide

theorem dayName_ne_B (d : Weekday) : 'B' ∉ (dayName d).data := by
  cases d <;> decide

theorem intervalPart_ne_B (r : RRule) : 'B' ∉ (intervalPart r).data := by
  unfold intervalPart
  split
  · decide
  · intro h
    rcases List.mem_append.mp h with h | h
    · exact absurd h (by decide)
    · exact numStr_ne_B _ h

theorem wkstPart_ne_B (r : RRule) : 'B' ∉ (wkstPart r).data := by
  unfold wkstPart
  split
  · decide
  · intro h
    rcases List.mem_append.mp h with h | h
    · exact absurd h (by decide)
    · exact dayName_ne_B _ h

theorem countPart_ne_B (r : RRule) : 'B' ∉ (countPart r).data := by
  unfold countPart
  cases r.count with
  | none => decide
  | some c =>
    intro h
    rcases List.mem_append.mp h with h | h
    · exact absurd h (by decide)
    · exact numStr_ne_B _ h

theorem untilPart_ne_B (r : RRule) : 'B' ∉ (untilPart r).data := by
  unfold untilPart
  cases r.til with
  | none => decide
  | some u =>
    intro h
    rcases List.mem_append.mp h with h | h
    · exact absurd h (by decide)
    · exact dateTimeStr_ne_B _ h

theorem rruleStem_ne_B (r : RRule) : 'B' ∉ (rruleStem r).data := by
  unfold rruleStem
  intro h
  simp only [strData_append, List.mem_append] at h
  rcases h with (((((((h | h) | h) | h) | h) | h) | h) | h)
  exacts [absurd h (by decide), dateTimeStr_ne_B _ h, absurd h (by decide),
    freqName_ne_B _ h, intervalPart_ne_B _ h, wkstPart_ne_B _ h,
    countPart_ne_B _ h, untilPart_ne_B _ h]

theorem dayName_len2 (d : Weekday) : (dayName d).data.length = 2 := by
  cases d <;> rfl

theorem dayName_inj {a b : Weekday} (h : dayName a = dayName b) : a = b := by
  revert h
  cases a <;> cases b <;> decide

theorem dayName_ne_comma (d : Weekday) : ',' ∉ (dayName d).data := by
  cases d <;> decide

theorem dayListStr_cons_len (d : Weekday) (l : List Weekday) :
    2 ≤ (dayListStr (d :: l)).data.length := by
  cases l with
  | nil => cases d <;> decide
  | cons d' l' =>
    show 2 ≤ (dayName d ++ "," ++ dayListStr (d' :: l')).data.length
    simp only [strData_append, List.length_append, dayName_len2]
    omega

/-- The `','.join` of two-letter day names is an injective encoding. -/
theorem dayListStr_inj : ∀ l1 l2 : List Weekday, dayListStr l1 = dayListStr l2 → l1 = l2 := by
  intro l1
  induction l1 with
  | nil =>
    intro l2 h
    cases l2 with
    | nil => rfl
    | cons d r =>
      exfalso
      have hl : (dayListStr ([] : List Weekday)).data.length
          = (dayListStr (d :: r)).data.length := congrArg (fun s => s.data.length) h
      have h0 : (dayListStr ([] : List Weekday)).data.length = 0 := rfl
      have h2 := dayListStr_cons_len d r
      omega
  | cons d rest ih =>
    intro l2 h
    cases l2 with
    | nil =>
      exfalso
      have hl : (dayListStr (d :: rest)).data.length
          = (dayListStr ([] : List Weekday)).data.length := congrArg (fun s => s.data.length) h
      have h0 : (dayListStr ([] : List Weekday)).data.length = 0 := rfl
      have h2 := dayListStr_cons_len d rest
      omega
    | cons e rest2 =>
      cases rest with
      | nil =>
        cases rest2 with
        | nil => rw [dayName_inj (show dayName d = dayName e from h)]
        | cons e2 r2 =>
          exfalso
          have hl : (dayName d).data.length
              = (dayName e ++ "," ++ dayListStr (e2 :: r2)).data.length :=
            congrArg (fun s => s.data.length) h
          simp only [strData_append, List.length_append, dayName_len2] at hl
          have h2 := dayListStr_cons_len e2 r2
          omega
      | cons d2 r1 =>
        cases rest2 with
        | nil =>
          exfalso
          have hl : (dayName d ++ "," ++ dayListStr (d2 :: r1)).data.length
              = (dayName e).data.length := congrArg (fun s => s.data.length) h
          simp only [strData_append, List.length_append, dayName_len2] at hl
          have h2 := dayListStr_cons_len d2 r1
          omega
        | cons e2 r2 =>
          have hd : (dayName d).data ++ ',' :: (dayListStr (d2 :: r1)).data
              = (dayName e).data ++ ',' :: (dayListStr (e2 :: r2)).data := by
            have hdata := congrArg String.data h
            rw [show dayListStr (d :: d2 :: r1) = dayName d ++ "," ++ dayListStr (d2 :: r1) from rfl,
              show dayListStr (e :: e2 :: r2) = dayName e ++ "," ++ dayListStr (e2 :: r2) from rfl,
              strData_append, strData_append, strData_append, strData_append,
              show ("," : String).data = [','] from rfl] at hdata
            simpa [List.append_assoc] using hdata
          obtain ⟨h1, h2⟩ := split_unique_char ',' _ _ _ _
            (dayName_ne_comma d) (dayName_ne_comma e) hd
          have hde : d = e := dayName_inj ((strEq_iff_data _ _).mpr h1)
          have hrest : d2 :: r1 = e2 :: r2 := ih _ ((strEq_iff_data _ _).mpr h2)
          rw [hde, hrest]

/-- Expanding a serialization that ends in a `BYDAY` part around its
unique letter `B`. -/
theorem byday_expand (s D : String) :
    (s ++ (";BYDAY=" ++ D)).data
      = (s.data ++ [';']) ++ 'B' :: ('Y' :: 'D' :: 'A' :: 'Y' :: '=' :: D.data) := by
  rw [strData_append, strData_append]
  rw [show (";BYDAY=" : String).data = [';', 'B', 'Y', 'D', 'A', 'Y', '='] from rfl]
  simp [List.append_assoc]

/-- Two rules whose dateutil serializations coincide have the same
`BYDAY` list: the letter `B` occurs in a serialization exactly once, at
the head of the `BYDAY` part. -/
theorem rruleStr_byweekday {a b : RRule} (h : rruleStr a = rruleStr b) :
    a.byweekday = b.byweekday := by
  have hd : (rruleStem a ++ bydayPart a).data = (rruleStem b ++ bydayPart b).data :=
    congrArg String.data h
  cases ha : a.byweekday with
  | none =>
    cases hb : b.byweekday with
    | none => rfl
    | some lb =>
      exfalso
      rw [show bydayPart a = "" from by simp [bydayPart, ha],
        show bydayPart b = ";BYDAY=" ++ dayListStr lb from by simp [bydayPart, hb]] at hd
      have hmem : 'B' ∈ (rruleStem a ++ ("" : String)).data := by
        rw [hd, strData_append]
        refine List.mem_append_right _ ?_
        rw [strData_append]
        exact List.mem_append_left _ (by decide)
      rw [strData_append] at hmem
      rcases List.mem_append.mp hmem with hm | hm
      · exact rruleStem_ne_B a hm
      · exact absurd hm (by decide)
  | some la =>
    cases hb : b.byweekday with
    | none =>
      exfalso
      rw [show bydayPart a = ";BYDAY=" ++ dayListStr la from by simp [bydayPart, ha],
        show bydayPart b = "" from by simp [bydayPart, hb]] at hd
      have hmem : 'B' ∈ (rruleStem b ++ ("" : String)).data := by
        rw [← hd, strData_append]
        refine List.mem_append_right _ ?_
        rw [strData_append]
        exact List.mem_append_left _ (by decide)
      rw [strData_append] at hmem
      rcases List.mem_append.mp hmem with hm | hm
      · exact rruleStem_ne_B b hm
      · exact absurd hm (by decide)
    | some lb =>
      rw [show bydayPart a = ";BYDAY=" ++ dayListStr la from by simp [bydayPart, ha],
        show bydayPart b = ";BYDAY=" ++ dayListStr lb from by simp [bydayPart, hb]] at hd
      rw [byday_expand, byday_expand] at hd
      have hnB1 : 'B' ∉ (rruleStem a).data ++ [';'] := by
        intro hm
        rcases List.mem_append.mp hm with hm | hm
        · exact rruleStem_ne_B a hm
        · exact absurd hm (by decide)
      have hnB2 : 'B' ∉ (rruleStem b).data ++ [';'] := by
        intro hm
        rcases List.mem_append.mp hm with hm | hm
        · exact rruleStem_ne_B b hm
        · exact absurd hm (by decide)
      obtain ⟨-, htail⟩ := split_unique_char 'B' _ _ _ _ hnB1 hnB2 hd
      simp only [List.cons.injEq, true_and] at htail
      have : dayListStr la = dayListStr lb := (strEq_iff_data _ _).mpr htail
      rw [dayListStr_inj _ _ this]

/-- C1: the Recurrence Normalizer's structural-equality decision is
anchor-invariant.  (i) It judges two rules equal exactly when the
serialization of rule A equals the serialization of rule B with B's
anchor start, week-start, count and until overwritten by A's values;
(ii) two rules that differ only in anchor start and count/until are
always judged equal; (iii) two rules with different day-of-week lists
are never judged equal. -/
theorem c1_normalizer_anchor_invariance :
    (∀ r1 r2 : RRule, rulesStructurallyEqual r1 r2 = true ↔
      rruleStr r1 = rruleStr (r2.replace r1.dtstart r1.wkst r1.count r1.til)) ∧
    (∀ (r1 : RRule) (d : DateTime) (c : Option Nat) (u : Option DateTime),
      rulesStructurallyEqual r1 { r1 with dtstart := d, count := c, til := u } = true) ∧
    (∀ r1 r2 : RRule, r1.byweekday ≠ r2.byweekday →
      rulesStructurallyEqual r1 r2 = false) := by
  refine ⟨fun r1 r2 => ?_, fun r1 d c u => ?_, fun r1 r2 hne => ?_⟩
  · simp [rulesStructurallyEqual]
  · simp [rulesStructurallyEqual, RRule.replace]
  · cases hres : rulesStructurallyEqual r1 r2 with
    | false => rfl
    | true =>
      exfalso
      have heq : rruleStr r1 = rruleStr (r2.replace r1.dtstart r1.wkst r1.count r1.til) := by
        simpa [rulesStructurallyEqual] using hres
      have hby := rruleStr_byweekday heq
      simp only [RRule.replace] at hby
      exact hne hby

/-- Witness for C1: a weekly-Monday rule equals its re-anchored,
re-bounded variant, and never equals the weekly-Tuesday rule. -/
theorem c1_witness :
    rulesStructurallyEqual ruleFinite
      { ruleFinite with dtstart := sampleDT2, count := none, til := some sampleDT2 } = true ∧
    rulesStructurallyEqual ruleFinite ruleTue = false :=
  ⟨c1_normalizer_anchor_invariance.2.1 ruleFinite sampleDT2 none (some sampleDT2),
   c1_normalizer_anchor_invariance.2.2 ruleFinite ruleTue (by decide)⟩

/-! ### The interval model -/

theorem lexLe_refl : ∀ l : List Nat, lexLe l l = true := by
  intro l
  induction l with
  | nil => rfl
  | cons a as ih => simp [lexLe, ih]

theorem lexLe_trans : ∀ l1 l2 l3 : List Nat,
    lexLe l1 l2 = true → lexLe l2 l3 = true → lexLe l1 l3 = true := by
  intro l1
  induction l1 with
  | nil => intro l2 l3 _ _; rfl
  | cons a as ih =>
    intro l2 l3 h12 h23
    cases l2 with
    | nil => simp [lexLe] at h12
    | cons b bs =>
      cases l3 with
      | nil => simp [lexLe] at h23
      | cons c cs =>
        simp only [lexLe, Bool.or_eq_true, Bool.and_eq_true, decide_eq_true_eq] at h12 h23 ⊢
        rcases h12 with h | ⟨hab, hrec⟩
        · rcases h23 with h' | ⟨hbc, _⟩
          · exact Or.inl (by omega)
          · exact Or.inl (by omega)
        · rcases h23 with h' | ⟨hbc, hrec'⟩
          · exact Or.inl (by omega)
          · exact Or.inr ⟨by omega, ih bs cs hrec hrec'⟩

/-- On values of one kind, the code's comparison succeeds and agrees with
the claim-side order. -/
theorem tempLe_same_kind (a b : Temporal) (h : a.isDatetime = b.isDatetime) :
    tempLe a b = .ok (tempLeB a b) := by
  cases a <;> cases b <;> simp_all [tempLe, tempLeB, Temporal.isDatetime]

theorem tempLeB_refl (a : Temporal) : tempLeB a a = true := by
  cases a <;> simp [tempLeB, lexLe_refl]

theorem tempLeB_trans {a b c : Temporal} (h1 : tempLeB a b = true)
    (h2 : tempLeB b c = true) : tempLeB a c = true := by
  cases a <;> cases b <;> cases c <;> simp_all [tempLeB]
  · exact lexLe_trans _ _ _ h1 h2
  · exact lexLe_trans _ _ _ h1 h2

/-- C7: for every pair of events whose four temporal values are present
and all of one kind, full-instant overlap is exactly the closed-interval
test `s1 ≤ e2 ∧ e1 ≥ s2`; in particular touching valid spans with
`e1 = s2` are reported as overlapping. -/
theorem c7_closed_interval_overlap :
    (∀ (e1 e2 : Event) (s1 en1 s2 en2 : Temporal),
      e1.dtstart = some s1 → e1.dtend = some en1 →
      e2.dtstart = some s2 → e2.dtend = some en2 →
      s1.isDatetime = s2.isDatetime → en1.isDatetime = en2.isDatetime →
      s1.isDatetime = en1.isDatetime →
      eventsOverlap e1 e2 false = .ok (tempLeB s1 en2 && tempLeB s2 en1)) ∧
    (∀ (e1 e2 : Event) (s1 en1 s2 en2 : Temporal),
      e1.dtstart = some s1 → e1.dtend = some en1 →
      e2.dtstart = some s2 → e2.dtend = some en2 →
      s1.isDatetime = s2.isDatetime → en1.isDatetime = en2.isDatetime →
      s1.isDatetime = en1.isDatetime →
      en1 = s2 → tempLeB s1 en1 = true → tempLeB s2 en2 = true →
      eventsOverlap e1 e2 false = .ok true) := by
  have main : ∀ (e1 e2 : Event) (s1 en1 s2 en2 : Temporal),
      e1.dtstart = some s1 → e1.dtend = some en1 →
      e2.dtstart = some s2 → e2.dtend = some en2 →
      s1.isDatetime = s2.isDatetime → en1.isDatetime = en2.isDatetime →
      s1.isDatetime = en1.isDatetime →
      eventsOverlap e1 e2 false = .ok (tempLeB s1 en2 && tempLeB s2 en1) := by
    intro e1 e2 s1 en1 s2 en2 h1 h2 h3 h4 hk1 hk2 hk3
    have hk4 : s1.isDatetime = en2.isDatetime := by rw [hk3, hk2]
    have hk5 : s2.isDatetime = en1.isDatetime := by rw [← hk1, hk3]
    simp only [eventsOverlap, h1, h2, h3, h4]
    rw [if_neg (by simp [hk1, hk2]), if_neg (by simp)]
    rw [tempLe_same_kind s1 en2 hk4]
    cases hb : tempLeB s1 en2 with
    | false => simp
    | true => simp [tempLe_same_kind s2 en1 hk5]
  refine ⟨main, fun e1 e2 s1 en1 s2 en2 h1 h2 h3 h4 hk1 hk2 hk3 htouch hv1 hv2 => ?_⟩
  rw [main e1 e2 s1 en1 s2 en2 h1 h2 h3 h4 hk1 hk2 hk3]
  have hA : tempLeB s1 en2 = true := tempLeB_trans hv1 (htouch ▸ hv2)
  have hB : tempLeB s2 en1 = true := by rw [← htouch]; exact tempLeB_refl en1
  rw [hA, hB]
  rfl

/-- Witness for C7: overlapping lunch events, and touching spans. -/
theorem c7_witness :
    eventsOverlap evSingle1 evSingle2 false
      = .ok (tempLeB (.datetime sampleDT1) (.datetime sampleDT2) &&
             tempLeB (.datetime sampleDT1) (.datetime sampleDT2)) ∧
    eventsOverlap evSingle1 evTouch false = .ok true :=
  ⟨c7_closed_interval_overlap.1 evSingle1 evSingle2 _ _ _ _ rfl rfl rfl rfl rfl rfl rfl,
   c7_closed_interval_overlap.2 evSingle1 evTouch
     (.datetime sampleDT1) (.datetime sampleDT2) (.datetime sampleDT2) (.datetime sampleDT3)
     rfl rfl rfl rfl rfl rfl rfl rfl (by decide) (by decide)⟩

/-- C4 (counterexample): the overlap predicate does raise.  In
time-of-day mode a pair of date-only events hits `.time()` on a
`datetime.date` (`AttributeError`); in full-instant mode a date start
paired with a datetime end hits `date <= datetime` (`TypeError`). -/
theorem c4_counterexample :
    eventsOverlap evAllDay evAllDay true = .error .attributeError ∧
    eventsOverlap evMixedKinds evMixedKinds false = .error .typeError :=
  ⟨rfl, rfl⟩

/-- C4 (amended): the overlap predicate returns `False` without raising
whenever a start/end is missing (both modes) or the two starts or two
ends differ in kind; with all four values present and kinds aligned it
returns a boolean in full-instant mode when start-kind equals end-kind
and in time-of-day mode when all values are datetimes; but it raises
`AttributeError` in time-of-day mode on date-only values and `TypeError`
in full-instant mode when start-kind differs from end-kind. -/
theorem c4_overlap_totality :
    (∀ (e1 e2 : Event) (timeOnly : Bool),
      e1.dtstart = none ∨ e1.dtend = none ∨ e2.dtstart = none ∨ e2.dtend = none →
      eventsOverlap e1 e2 timeOnly = .ok false) ∧
    (∀ (e1 e2 : Event) (s1 en1 s2 en2 : Temporal) (timeOnly : Bool),
      e1.dtstart = some s1 → e1.dtend = some en1 →
      e2.dtstart = some s2 → e2.dtend = some en2 →
      s1.isDatetime ≠ s2.isDatetime ∨ en1.isDatetime ≠ en2.isDatetime →
      eventsOverlap e1 e2 timeOnly = .ok false) ∧
    (∀ (e1 e2 : Event) (s1 en1 s2 en2 : Temporal),
      e1.dtstart = some s1 → e1.dtend = some en1 →
      e2.dtstart = some s2 → e2.dtend = some en2 →
      s1.isDatetime = s2.isDatetime → en1.isDatetime = en2.isDatetime →
      s1.isDatetime = en1.isDatetime →
      ∃ b, eventsOverlap e1 e2 false = .ok b) ∧
    (∀ (e1 e2 : Event) (a b c d : DateTime),
      e1.dtstart = some (.datetime a) → e1.dtend = some (.datetime b) →
      e2.dtstart = some (.datetime c) → e2.dtend = some (.datetime d) →
      ∃ bo, eventsOverlap e1 e2 true = .ok bo) ∧
    (∀ (e1 e2 : Event) (a b c d : Date),
      e1.dtstart = some (.date a) → e1.dtend = some (.date b) →
      e2.dtstart = some (.date c) → e2.dtend = some (.date d) →
      eventsOverlap e1 e2 true = .error .attributeError) ∧
    (∀ (e1 e2 : Event) (s1 en1 s2 en2 : Temporal),
      e1.dtstart = some s1 → e1.dtend = some en1 →
      e2.dtstart = some s2 → e2.dtend = some en2 →
      s1.isDatetime = s2.isDatetime → en1.isDatetime = en2.isDatetime →
      s1.isDatetime ≠ en1.isDatetime →
      eventsOverlap e1 e2 false = .error .typeError) := by
  refine ⟨?_, ?_, ?_, ?_, ?_, ?_⟩
  · intro e1 e2 timeOnly h
    rcases h with h | h | h | h
    · cases h2 : e1.dtend <;> cases h3 : e2.dtstart <;> cases h4 : e2.dtend <;>
        simp [eventsOverlap, h, h2, h3, h4]
    · cases h1 : e1.dtstart <;> cases h3 : e2.dtstart <;> cases h4 : e2.dtend <;>
        simp [eventsOverlap, h, h1, h3, h4]
    · cases h1 : e1.dtstart <;> cases h2 : e1.dtend <;> cases h4 : e2.dtend <;>
        simp [eventsOverlap, h, h1, h2, h4]
    · cases h1 : e1.dtstart <;> cases h2 : e1.dtend <;> cases h3 : e2.dtstart <;>
        simp [eventsOverlap, h, h1, h2, h3]
  · intro e1 e2 s1 en1 s2 en2 timeOnly h1 h2 h3 h4 hmis
    simp only [eventsOverlap, h1, h2, h3, h4]
    rw [if_pos]
    rcases hmis with h | h
    · exact Or.inl h
    · exact Or.inr h
  · intro e1 e2 s1 en1 s2 en2 h1 h2 h3 h4 hk1 hk2 hk3
    have hk4 : s1.isDatetime = en2.isDatetime := by rw [hk3, hk2]
    have hk5 : s2.isDatetime = en1.isDatetime := by rw [← hk1, hk3]
    simp only [eventsOverlap, h1, h2, h3, h4]
    rw [if_neg (by simp [hk1, hk2]), if_neg (by simp)]
    rw [tempLe_same_kind s1 en2 hk4]
    cases hb : tempLeB s1 en2 with
    | false => exact ⟨false, rfl⟩
    | true => exact ⟨tempLeB s2 en1, by rw [tempLe_same_kind s2 en1 hk5]⟩
  · intro e1 e2 a b c d h1 h2 h3 h4
    simp only [eventsOverlap, h1, h2, h3, h4]
    rw [if_neg (by simp [Temporal.isDatetime]), if_pos trivial]
    exact ⟨_, rfl⟩
  · intro e1 e2 a b c d h1 h2 h3 h4
    simp only [eventsOverlap, h1, h2, h3, h4]
    rw [if_neg (by simp [Temporal.isDatetime]), if_pos trivial]
  · intro e1 e2 s1 en1 s2 en2 h1 h2 h3 h4 hk1 hk2 hk3
    have hk4 : s1.isDatetime ≠ en2.isDatetime := by rw [hk2] at hk3; exact hk3
    simp only [eventsOverlap, h1, h2, h3, h4]
    rw [if_neg (by simp [hk1, hk2]), if_neg (by simp)]
    cases s1 <;> cases en2 <;> simp_all [Temporal.isDatetime, tempLe]

/-- Witness for C4 applying the amended characterization at concrete
events: a missing end yields `False`, a kind mismatch yields `False`,
and datetime events are compared without raising in both modes. -/
theorem c4_witness :
    eventsOverlap evKeyword evSingle1 false = .ok false ∧
    eventsOverlap evSingle1 evAllDay true = .ok false ∧
    (∃ b, eventsOverlap evSingle1 evSingle2 false = .ok b) ∧
    (∃ b, eventsOverlap evSingle1 evSingle2 true = .ok b) :=
  ⟨c4_overlap_totality.1 evKeyword evSingle1 false (Or.inl rfl),
   c4_overlap_totality.2.1 evSingle1 evAllDay _ _ _ _ true rfl rfl rfl rfl
     (Or.inl (by decide)),
   c4_overlap_totality.2.2.1 evSingle1 evSingle2 _ _ _ _ rfl rfl rfl rfl rfl rfl rfl,
   c4_overlap_totality.2.2.2.1 evSingle1 evSingle2
     sampleDT1 sampleDT2 sampleDT1 sampleDT2 rfl rfl rfl rfl⟩

/-- C10: `recurring_events_are_equal` asserts that both events carry an
`RRULE`; called on an event without one it raises `AssertionError`
instead of answering "not a duplicate". -/
theorem c10_assert_rrule_present :
    ∀ (L : Libs) (e1 e2 : Event), e1.rrule = none ∨ e2.rrule = none →
      recurringEventsAreEqual L e1 e2 = .error .assertionError := by
  intro L e1 e2 h
  rcases h with h | h
  · cases h2 : e2.rrule <;> simp [recurringEventsAreEqual, h, h2]
  · cases h1 : e1.rrule <;> simp [recurringEventsAreEqual, h, h1]

/-- Witness for C10: a non-recurring pair hits the assertion. -/
theorem c10_witness :
    recurringEventsAreEqual libsFinite evSingle1 evSingle2 = .error .assertionError :=
  c10_assert_rrule_present libsFinite evSingle1 evSingle2 (Or.inl rfl)

/-- C2: when either parsed rule is finite (has a count or until), the
recurring pair is judged duplicate only if the occurrence check passed:
`rule2.between` over rule1's anchor-to-last window is non-empty when
rule1 is finite, and otherwise (rule1 infinite, rule2 finite)
`rule1.between` over rule2's window is non-empty.  When both rules are
infinite the decision is independent of the occurrence engine
(`between` / last occurrence are never consulted). -/
theorem c2_bounded_overlap :
    (∀ (L : Libs) (e1 e2 : Event) (raw1 raw2 : String) (a1 a2 : Temporal) (r1 r2 : RRule),
      e1.rrule = some raw1 → e2.rrule = some raw2 →
      e1.dtstart = some a1 → e2.dtstart = some a2 →
      L.rrulestr raw1 a1 = .ok r1 → L.rrulestr raw2 a2 = .ok r2 →
      recurringEventsAreEqual L e1 e2 = .ok true →
      ((r1.count.isSome || r1.til.isSome) = true ∨ (r2.count.isSome || r2.til.isSome) = true) →
      ((r1.count.isSome || r1.til.isSome) = true ∧
        (L.between r2 r1.dtstart (L.lastOcc r1)).length ≠ 0) ∨
      ((r1.count.isSome || r1.til.isSome) = false ∧
        (r2.count.isSome || r2.til.isSome) = true ∧
        (L.between r1 r2.dtstart (L.lastOcc r2)).length ≠ 0)) ∧
    (∀ (L L' : Libs) (e1 e2 : Event) (raw1 raw2 : String) (a1 a2 : Temporal) (r1 r2 : RRule),
      L.similarity = L'.similarity → L.rrulestr = L'.rrulestr →
      e1.rrule = some raw1 → e2.rrule = some raw2 →
      e1.dtstart = some a1 → e2.dtstart = some a2 →
      L.rrulestr raw1 a1 = .ok r1 → L.rrulestr raw2 a2 = .ok r2 →
      (r1.count.isSome || r1.til.isSome) = false →
      (r2.count.isSome || r2.til.isSome) = false →
      recurringEventsAreEqual L e1 e2 = recurringEventsAreEqual L' e1 e2) := by
  constructor
  · intro L e1 e2 raw1 raw2 a1 a2 r1 r2 h1 h2 hd1 hd2 hp1 hp2 hres hfin
    simp only [recurringEventsAreEqual, h1, h2, getDtstart, hd1, hd2, hp1, hp2] at hres
    split at hres
    · split at hres
      · split at hres
        · rename_i hfin1
          split at hres
          · exact absurd hres (by simp)
          · exact Or.inl ⟨hfin1, by assumption⟩
        · rename_i hfin1
          split at hres
          · rename_i hfin2
            split at hres
            · exact absurd hres (by simp)
            · exact Or.inr ⟨by simpa using hfin1, hfin2, by assumption⟩
          · rename_i hfin2
            rcases hfin with h | h
            · exact absurd h hfin1
            · exact absurd h hfin2
      · exact absurd hres (by simp)
    · exact absurd hres (by simp)
  · intro L L' e1 e2 raw1 raw2 a1 a2 r1 r2 hsim hpar h1 h2 hd1 hd2 hp1 hp2 hf1 hf2
    have hp1' : L'.rrulestr raw1 a1 = .ok r1 := by rw [← hpar]; exact hp1
    have hp2' : L'.rrulestr raw2 a2 = .ok r2 := by rw [← hpar]; exact hp2
    simp only [recurringEventsAreEqual, h1, h2, getDtstart, hd1, hd2, hp1, hp2,
      hp1', hp2', hf1, hf2, hsim]
    simp

/-- Witness for C2: a finite weekly rule whose window the other rule
occupies (part 1), and infinite rules compared under two occurrence
engines that disagree everywhere (part 2). -/
theorem c2_witness :
    (((ruleFinite.count.isSome || ruleFinite.til.isSome) = true ∧
      (libsFinite.between ruleFinite ruleFinite.dtstart
        (libsFinite.lastOcc ruleFinite)).length ≠ 0) ∨
     ((ruleFinite.count.isSome || ruleFinite.til.isSome) = false ∧
      (ruleFinite.count.isSome || ruleFinite.til.isSome) = true ∧
      (libsFinite.between ruleFinite ruleFinite.dtstart
        (libsFinite.lastOcc ruleFinite)).length ≠ 0)) ∧
    recurringEventsAreEqual libsInfA evRec1 evRec2
      = recurringEventsAreEqual libsInfB evRec1 evRec2 :=
  ⟨c2_bounded_overlap.1 libsFinite evRec1 evRec2 "FREQ=WEEKLY" "FREQ=WEEKLY;COUNT=5"
      (.datetime sampleDT1) (.datetime sampleDT1) ruleFinite ruleFinite
      rfl rfl rfl rfl rfl rfl (by rfl) (Or.inl rfl),
   c2_bounded_overlap.2 libsInfA libsInfB evRec1 evRec2 "FREQ=WEEKLY" "FREQ=WEEKLY;COUNT=5"
      (.datetime sampleDT1) (.datetime sampleDT1) ruleInfinite ruleInfinite
      rfl rfl rfl rfl rfl rfl rfl rfl rfl rfl⟩

/-! ### Pipeline bookkeeping lemmas -/

/-- A successful `list.remove` yields a sublist one element shorter. -/
theorem removeFirst_spec : ∀ (l : List Event) (x : Event) (l' : List Event),
    removeFirst l x = .ok l' → l'.Sublist l ∧ l'.length + 1 = l.length := by
  intro l
  induction l with
  | nil => intro x l' h; simp [removeFirst] at h
  | cons a rest ih =>
    intro x l' h
    simp only [removeFirst] at h
    split at h
    · injection h with h'
      subst h'
      exact ⟨List.sublist_cons_self a rest, rfl⟩
    · cases hr : removeFirst rest x with
      | error e => rw [hr] at h; exact absurd h (by simp)
      | ok r =>
        rw [hr] at h
        injection h with h'
        subst h'
        obtain ⟨hs, hl⟩ := ih x r hr
        exact ⟨hs.cons₂ a, by simpa using hl⟩

theorem phraseLoop_spec : ∀ (ps : List String) (ev : Event) (cal : List Event) (n : Nat)
    (cal' : List Event) (n' : Nat), phraseLoop ps ev cal n = .ok (cal', n') →
    cal'.Sublist cal ∧ n' + cal'.length = n + cal.length := by
  intro ps
  induction ps with
  | nil =>
    intro ev cal n cal' n' h
    simp only [phraseLoop, Except.ok.injEq, Prod.mk.injEq] at h
    obtain ⟨h1, h2⟩ := h
    subst h1; subst h2
    exact ⟨List.Sublist.refl _, rfl⟩
  | cons p rest ih =>
    intro ev cal n cal' n' h
    simp only [phraseLoop] at h
    split at h
    · cases hr : removeFirst cal ev with
      | error e => rw [hr] at h; exact absurd h (by simp)
      | ok cal1 =>
        rw [hr] at h
        obtain ⟨hs1, hl1⟩ := removeFirst_spec cal ev cal1 hr
        obtain ⟨hs2, hl2⟩ := ih ev cal1 (n + 1) cal' n' h
        exact ⟨hs2.trans hs1, by omega⟩
    · exact ih ev cal n cal' n' h

theorem keywordWalkLoop_spec : ∀ (walk : List Event) (phrases : List String)
    (cal : List Event) (n : Nat) (cal' : List Event) (n' : Nat),
    keywordWalkLoop walk phrases cal n = .ok (cal', n') →
    cal'.Sublist cal ∧ n' + cal'.length = n + cal.length := by
  intro walk
  induction walk with
  | nil =>
    intro phrases cal n cal' n' h
    simp only [keywordWalkLoop, Except.ok.injEq, Prod.mk.injEq] at h
    obtain ⟨h1, h2⟩ := h
    subst h1; subst h2
    exact ⟨List.Sublist.refl _, rfl⟩
  | cons ev rest ih =>
    intro phrases cal n cal' n' h
    simp only [keywordWalkLoop] at h
    cases hr : phraseLoop phrases ev cal n with
    | error e => rw [hr] at h; exact absurd h (by simp)
    | ok p =>
      rw [hr] at h
      obtain ⟨hs1, hl1⟩ := phraseLoop_spec phrases ev cal n p.1 p.2 hr
      obtain ⟨hs2, hl2⟩ := ih phrases p.1 p.2 cal' n' h
      exact ⟨hs2.trans hs1, by omega⟩

theorem recurInner_spec (L : Libs) (e1 : Event) : ∀ (walk : List Event) (st : CalPair)
    (n : Nat) (st' : CalPair) (n' : Nat), recurInner L e1 walk st n = .ok (st', n') →
    st'.primary = st.primary ∧ st'.target.Sublist st.target ∧
      n' + st'.target.length = n + st.target.length := by
  intro walk
  induction walk with
  | nil =>
    intro st n st' n' h
    simp only [recurInner, Except.ok.injEq, Prod.mk.injEq] at h
    obtain ⟨h1, h2⟩ := h
    subst h1; subst h2
    exact ⟨rfl, List.Sublist.refl _, rfl⟩
  | cons e2 rest ih =>
    intro st n st' n' h
    simp only [recurInner] at h
    cases h2 : e2.rrule with
    | none => rw [h2] at h; exact ih st n st' n' h
    | some raw2 =>
      rw [h2] at h
      cases hc : recurringEventsAreEqual L e1 e2 with
      | error e => rw [hc] at h; exact absurd h (by simp)
      | ok b =>
        rw [hc] at h
        cases b with
        | false => exact ih st n st' n' h
        | true =>
          cases hr : removeFirst st.target e2 with
          | error e => rw [hr] at h; exact absurd h (by simp)
          | ok t' =>
            rw [hr] at h
            obtain ⟨hs1, hl1⟩ := removeFirst_spec st.target e2 t' hr
            obtain ⟨hpr, hs2, hl2⟩ := ih { st with target := t' } (n + 1) st' n' h
            exact ⟨hpr, hs2.trans hs1, by simp at hl2 ⊢; omega⟩

theorem recurOuter_spec (L : Libs) : ∀ (prim : List Event) (st : CalPair)
    (n : Nat) (st' : CalPair) (n' : Nat), recurOuter L prim st n = .ok (st', n') →
    st'.primary = st.primary ∧ st'.target.Sublist st.target ∧
      n' + st'.target.length = n + st.target.length := by
  intro prim
  induction prim with
  | nil =>
    intro st n st' n' h
    simp only [recurOuter, Except.ok.injEq, Prod.mk.injEq] at h
    obtain ⟨h1, h2⟩ := h
    subst h1; subst h2
    exact ⟨rfl, List.Sublist.refl _, rfl⟩
  | cons e1 rest ih =>
    intro st n st' n' h
    simp only [recurOuter] at h
    cases h1 : e1.rrule with
    | none => rw [h1] at h; exact ih st n st' n' h
    | some raw1 =>
      rw [h1] at h
      cases hi : recurInner L e1 st.target st n with
      | error e => rw [hi] at h; exact absurd h (by simp)
      | ok p =>
        rw [hi] at h
        obtain ⟨hpr1, hs1, hl1⟩ := recurInner_spec L e1 st.target st n p.1 p.2 hi
        obtain ⟨hpr2, hs2, hl2⟩ := ih p.1 p.2 st' n' h
        exact ⟨hpr2.trans hpr1, hs2.trans hs1, by omega⟩

theorem singleInner_spec (L : Libs) (e1 : Event) : ∀ (walk : List Event) (st : CalPair)
    (n : Nat) (st' : CalPair) (n' : Nat), singleInner L e1 walk st n = .ok (st', n') →
    st'.primary = st.primary ∧ st'.target.Sublist st.target ∧
      n' + st'.target.length = n + st.target.length := by
  intro walk
  induction walk with
  | nil =>
    intro st n st' n' h
    simp only [singleInner, Except.ok.injEq, Prod.mk.injEq] at h
    obtain ⟨h1, h2⟩ := h
    subst h1; subst h2
    exact ⟨rfl, List.Sublist.refl _, rfl⟩
  | cons e2 rest ih =>
    intro st n st' n' h
    simp only [singleInner] at h
    cases h2 : e2.rrule with
    | some raw2 => rw [h2] at h; exact ih st n st' n' h
    | none =>
      rw [h2] at h
      cases hc : nonRecurringDuplicate L e1 e2 with
      | error e => rw [hc] at h; exact absurd h (by simp)
      | ok b =>
        rw [hc] at h
        cases b with
        | false => exact ih st n st' n' h
        | true =>
          cases hr : removeFirst st.target e2 with
          | error e => rw [hr] at h; exact absurd h (by simp)
          | ok t' =>
            rw [hr] at h
            obtain ⟨hs1, hl1⟩ := removeFirst_spec st.target e2 t' hr
            obtain ⟨hpr, hs2, hl2⟩ := ih { st with target := t' } (n + 1) st' n' h
            exact ⟨hpr, hs2.trans hs1, by simp at hl2 ⊢; omega⟩

theorem singleOuter_spec (L : Libs) : ∀ (prim : List Event) (st : CalPair)
    (n : Nat) (st' : CalPair) (n' : Nat), singleOuter L prim st n = .ok (st', n') →
    st'.primary = st.primary ∧ st'.target.Sublist st.target ∧
      n' + st'.target.length = n + st.target.length := by
  intro prim
  induction prim with
  | nil =>
    intro st n st' n' h
    simp only [singleOuter, Except.ok.injEq, Prod.mk.injEq] at h
    obtain ⟨h1, h2⟩ := h
    subst h1; subst h2
    exact ⟨rfl, List.Sublist.refl _, rfl⟩
  | cons e1 rest ih =>
    intro st n st' n' h
    simp only [singleOuter] at h
    cases h1 : e1.rrule with
    | some raw1 => rw [h1] at h; exact ih st n st' n' h
    | none =>
      rw [h1] at h
      cases hi : singleInner L e1 st.target st n with
      | error e => rw [hi] at h; exact absurd h (by simp)
      | ok p =>
        rw [hi] at h
        obtain ⟨hpr1, hs1, hl1⟩ := singleInner_spec L e1 st.target st n p.1 p.2 hi
        obtain ⟨hpr2, hs2, hl2⟩ := ih p.1 p.2 st' n' h
        exact ⟨hpr2.trans hpr1, hs2.trans hs1, by omega⟩

theorem filterDuplicates_spec (L : Libs) (st : CalPair) (out : CalPair)
    (n : Nat) (ret : Option Nat) (h : filterDuplicates L st = .ok (out, n, ret)) :
    ret = none ∧ out.primary = st.primary ∧ out.target.Sublist st.target ∧
      n + out.target.length = st.target.length := by
  simp only [filterDuplicates] at h
  cases h1 : recurOuter L st.primary st 0 with
  | error e => rw [h1] at h; exact absurd h (by simp)
  | ok p1 =>
    obtain ⟨st1, n1⟩ := p1
    rw [h1] at h
    have h' : (match singleOuter L st1.primary st1 n1 with
        | Except.error e => Except.error e
        | Except.ok (st2, n2) => Except.ok (st2, n2, (none : Option Nat)))
        = Except.ok (out, n, ret) := h
    cases h2 : singleOuter L st1.primary st1 n1 with
    | error e => rw [h2] at h'; exact absurd h' (by simp)
    | ok p2 =>
      obtain ⟨st2, n2⟩ := p2
      rw [h2] at h'
      simp only [Except.ok.injEq, Prod.mk.injEq] at h'
      obtain ⟨ho, hn, hr⟩ := h'
      subst ho; subst hn
      obtain ⟨hpr1, hs1, hl1⟩ := recurOuter_spec L st.primary st 0 st1 n1 h1
      obtain ⟨hpr2, hs2, hl2⟩ := singleOuter_spec L st1.primary st1 n1 st2 n2 h2
      exact ⟨hr.symm, hpr2.trans hpr1, hs2.trans hs1, by omega⟩

theorem filterEventsByKeyword_spec (phrases : List String) (cal cal' : List Event)
    (n : Nat) (ret : Option Nat) (h : filterEventsByKeyword phrases cal = .ok (cal', n, ret)) :
    ret = none ∧ cal'.Sublist cal ∧ n + cal'.length = cal.length := by
  simp only [filterEventsByKeyword] at h
  cases h1 : keywordWalkLoop cal phrases cal 0 with
  | error e => rw [h1] at h; exact absurd h (by simp)
  | ok p =>
    rw [h1] at h
    simp only [Except.ok.injEq, Prod.mk.injEq] at h
    obtain ⟨hc, hn, hr⟩ := h
    subst hc; subst hn
    obtain ⟨hs, hl⟩ := keywordWalkLoop_spec cal phrases cal 0 p.1 p.2 h1
    exact ⟨hr.symm, hs, by omega⟩

/-- C3 (counterexample): a keyword-filter run that removes one event
returns Python `None`, not the count 1. -/
theorem c3_counterexample :
    filterEventsByKeyword ["OOF"] [evKeyword] = .ok ([], 1, none) ∧
    (none : Option Nat) ≠ some 1 := ⟨rfl, by decide⟩

/-- C3 (amended): both public operations compute the number of removed
events in a local counter (which they log), and on every successful run
that counter equals the number of events removed from the target; but
both functions return Python `None`, not the count. -/
theorem c3_count_logged_not_returned :
    (∀ (phrases : List String) (cal cal' : List Event) (n : Nat) (ret : Option Nat),
      filterEventsByKeyword phrases cal = .ok (cal', n, ret) →
      ret = none ∧ n + cal'.length = cal.length) ∧
    (∀ (L : Libs) (st out : CalPair) (n : Nat) (ret : Option Nat),
      filterDuplicates L st = .ok (out, n, ret) →
      ret = none ∧ n + out.target.length = st.target.length) := by
  constructor
  · intro phrases cal cal' n ret h
    obtain ⟨h1, h2, h3⟩ := filterEventsByKeyword_spec phrases cal cal' n ret h
    exact ⟨h1, h3⟩
  · intro L st out n ret h
    obtain ⟨h1, h2, h3, h4⟩ := filterDuplicates_spec L st out n ret h
    exact ⟨h1, h4⟩

/-- Witness for C3 on concrete runs of both operations. -/
theorem c3_witness :
    ((none : Option Nat) = none ∧ 1 + ([] : List Event).length = [evKeyword].length) ∧
    ((none : Option Nat) = none ∧
      1 + (CalPair.mk [evSingle1] []).target.length
        = (CalPair.mk [evSingle1] [evSingle2]).target.length) :=
  ⟨c3_count_logged_not_returned.1 ["OOF"] [evKeyword] [] 1 none rfl,
   c3_count_logged_not_returned.2 libsFinite ⟨[evSingle1], [evSingle2]⟩
     ⟨[evSingle1], []⟩ 1 none rfl⟩

/-- C9: filtering only removes events — on every successful run the
keyword filter's and duplicate filter's resulting target event sequence
is a subsequence (sublist) of the original sequence, and the duplicate
filter leaves the primary collection unchanged. -/
theorem c9_removal_only :
    (∀ (phrases : List String) (cal cal' : List Event) (n : Nat) (ret : Option Nat),
      filterEventsByKeyword phrases cal = .ok (cal', n, ret) → cal'.Sublist cal) ∧
    (∀ (L : Libs) (st out : CalPair) (n : Nat) (ret : Option Nat),
      filterDuplicates L st = .ok (out, n, ret) →
      out.target.Sublist st.target ∧ out.primary = st.primary) := by
  constructor
  · intro phrases cal cal' n ret h
    exact (filterEventsByKeyword_spec phrases cal cal' n ret h).2.1
  · intro L st out n ret h
    obtain ⟨h1, h2, h3, h4⟩ := filterDuplicates_spec L st out n ret h
    exact ⟨h3, h2⟩

/-- Witness for C9 on concrete runs of both operations. -/
theorem c9_witness :
    ([] : List Event).Sublist [evKeyword] ∧
    ((CalPair.mk [evSingle1] []).target.Sublist (CalPair.mk [evSingle1] [evSingle2]).target ∧
      (CalPair.mk [evSingle1] []).primary = (CalPair.mk [evSingle1] [evSingle2]).primary) :=
  ⟨c9_removal_only.1 ["OOF"] [evKeyword] [] 1 none rfl,
   c9_removal_only.2 libsFinite ⟨[evSingle1], [evSingle2]⟩ ⟨[evSingle1], []⟩ 1 none rfl⟩

/-- C5 (counterexample): a malformed recurrence rule is not caught
anywhere — the parse failure aborts `filter_duplicates` entirely instead
of skipping the pair and continuing. -/
theorem c5_counterexample :
    filterDuplicates libsParseFail ⟨[evRec1], [evRec2]⟩ = .error .parseError := rfl

/-- C5 (amended): there is no try/except around the equivalence engine:
when the first compared recurring pair's rule is malformed, the parse
exception propagates out of `filter_duplicates`, aborting the filtering
of all remaining pairs. -/
theorem c5_error_propagates :
    ∀ (L : Libs) (prim tgt : List Event) (e1 e2 : Event) (raw1 : String)
      (a1 : Temporal) (err : PyErr),
      e1.rrule = some raw1 → e2.rrule.isSome = true →
      L.similarity e1.summary e2.summary ≥ FUZZY_MATCH_THRESHOLD →
      e1.dtstart = some a1 → L.rrulestr raw1 a1 = .error err →
      filterDuplicates L ⟨e1 :: prim, e2 :: tgt⟩ = .error err := by
  intro L prim tgt e1 e2 raw1 a1 err h1 h2 hsim hd1 hp
  cases hr2 : e2.rrule with
  | none => rw [hr2] at h2; exact absurd h2 (by simp)
  | some raw2 =>
    have hr : recurringEventsAreEqual L e1 e2 = .error err := by
      simp [recurringEventsAreEqual, h1, hr2, hsim, getDtstart, hd1, hp]
    simp [filterDuplicates, recurOuter, recurInner, h1, hr2, hr]

/-- Witness for C5: one bad rule aborts a two-pair filtering run. -/
theorem c5_witness :
    filterDuplicates libsParseFail ⟨[evRec1, evSingle1], [evRec2, evSingle2]⟩
      = .error .parseError :=
  c5_error_propagates libsParseFail [evSingle1] [evSingle2] evRec1 evRec2
    "FREQ=WEEKLY" (.datetime sampleDT1) .parseError rfl rfl (by decide) rfl rfl

/-- C6 (code bug): an event whose title contains two of the configured
phrases is removed on the first match, and the missing `break` makes the
second match call `list.remove` for the already-removed event, raising
`ValueError` instead of completing with a single removal. -/
theorem c6_double_removal_raises :
    filterEventsByKeyword ["OOF", "Blocked"] [evTwoPhrases] = .error .valueError := rfl

/-- C8 (counterexample): in `src/calfilter.py` a similarity score of
exactly 90 is rejected — the target event is kept, because that variant
compares with a strict `> 90`. -/
theorem c8_counterexample :
    cfLibs90.similarity evSingle2.summary "Lunch" ≥ 90 ∧
    calfilterFilterDuplicates cfLibs90 "primary" [evSingle2] [evSingle2]
      = .ok [evSingle2] :=
  ⟨by decide, rfl⟩

/-- C8 (amended): `src/api/index.py` accepts titles at score `>= 90` in
both the recurring gate and the non-recurring decision (below 90 is
rejected, and the non-recurring pair is duplicate exactly when overlap
holds and the score is at least 90); `src/calfilter.py`'s duplicate
filter instead accepts only scores strictly above 90, so a score of
exactly 90 is rejected there. -/
theorem c8_threshold_semantics :
    (∀ (L : Libs) (e1 e2 : Event) (raw1 raw2 : String),
      e1.rrule = some raw1 → e2.rrule = some raw2 →
      L.similarity e1.summary e2.summary < FUZZY_MATCH_THRESHOLD →
      recurringEventsAreEqual L e1 e2 = .ok false) ∧
    (∀ (L : Libs) (e1 e2 : Event),
      nonRecurringDuplicate L e1 e2 = .ok true ↔
      (eventsOverlap e1 e2 false = .ok true ∧
        L.similarity e1.summary e2.summary ≥ FUZZY_MATCH_THRESHOLD)) ∧
    (∀ (L : CalfilterLibs) (pc : String) (ev : Event) (tgt : List Event) (s en : Temporal),
      ev.dtstart = some s → ev.dtend = some en →
      (∀ (r0 : String) (rest : List String), L.icalevents pc s en = r0 :: rest →
        ¬ L.similarity ev.summary r0 > 90) →
      calfilterFilterDuplicates L pc [ev] tgt = .ok tgt) := by
  refine ⟨?_, ?_, ?_⟩
  · intro L e1 e2 raw1 raw2 h1 h2 hlt
    simp only [recurringEventsAreEqual, h1, h2]
    rw [if_neg (by omega)]
  · intro L e1 e2
    unfold nonRecurringDuplicate
    cases ho : eventsOverlap e1 e2 false with
    | error e => simp
    | ok b => cases b <;> simp
  · intro L pc ev tgt s en hs hen hlow
    simp only [calfilterFilterDuplicates, hs, hen]
    cases hq : L.icalevents pc s en with
    | nil => rfl
    | cons r0 rest =>
      simp [hlow r0 rest hq]

/-- Witness for C8 at concrete scores: 0 is rejected by the recurring
gate, the non-recurring decision is the stated conjunction, and a
calfilter score of exactly 90 removes nothing. -/
theorem c8_witness :
    recurringEventsAreEqual libsLow evRec1 evRec2 = .ok false ∧
    (nonRecurringDuplicate libsFinite evSingle1 evSingle2 = .ok true ↔
      (eventsOverlap evSingle1 evSingle2 false = .ok true ∧
        libsFinite.similarity evSingle1.summary evSingle2.summary ≥ FUZZY_MATCH_THRESHOLD)) ∧
    calfilterFilterDuplicates cfLibs90 "p" [evSingle1] [evSingle1] = .ok [evSingle1] :=
  ⟨c8_threshold_semantics.1 libsLow evRec1 evRec2 "FREQ=WEEKLY" "FREQ=WEEKLY;COUNT=5"
      rfl rfl (by decide),
   c8_threshold_semantics.2.1 libsFinite evSingle1 evSingle2,
   c8_threshold_semantics.2.2 cfLibs90 "p" evSingle1 [evSingle1]
      (.datetime sampleDT1) (.datetime sampleDT2) rfl rfl
      (fun r0 rest _ => by simp [cfLibs90])⟩

end CalFilter
